import Mathlib

/-!
Verification development for the ScriptDB repository (async SQLite access
layer).  The definitions below are a shallow embedding of
`src/scriptdb/basedb.py`: the migration engine (`BaseDB._apply_migrations`,
`BaseDB.init`), the background-task scheduler (`init` periodic loops,
`BaseDB._on_query`, `BaseDB.close`), the `require_init` guard, and — modelled
from the specification, since `scriptdb/dbbuilder.py` itself is not among the
provided sources — the DDL builder.
-/

namespace ScriptDB

/-! ## Migration engine: data model

A Python migration dict `{"name": ..., "sql": ..., "function": ...}` is
embedded as a `Migration`.  `name` is `Option String` because the code uses
`mig.get("name")` (absent key gives `None`); the truthiness test
`if not name` also rejects the empty string, captured by `nameFalsy`.
Scripts and callbacks may succeed or raise when executed; that environment
behaviour is part of the entry (`Outcome`), since the Lean model is
deterministic.  A callback may additionally fail Python's `callable` test.
-/

inductive Outcome where
  | ok
  | fail
deriving DecidableEq, Repr

structure MigFunction where
  callable : Bool
  outcome  : Outcome
deriving DecidableEq, Repr

structure Migration where
  name : Option String
  sql  : Option (String × Outcome)
  func : Option MigFunction
deriving DecidableEq, Repr

/-- Python truthiness test `if not name:` — true for a missing name and for `""`. -/
def nameFalsy : Option String → Bool
  | none => true
  | some s => decide (s = "")

/-- Observable side effects of `_apply_migrations`: running a script via
`conn.executescript`, invoking a callback with the connection, inserting a
ledger row, committing. -/
inductive Event where
  | execScript (sql : String)
  | callFunction (name : String)
  | insertLedger (name : String)
  | commit
deriving DecidableEq, Repr

/-- The configuration errors raised by `_apply_migrations`, plus the two ways an
action itself can raise. -/
inductive MigError where
  | duplicateNames
  | missingName
  | notCallable (name : String)
  | scriptFailed (name : String)
  | functionFailed (name : String)
  | noAction (name : String)
deriving DecidableEq, Repr

/-- Result of one `_apply_migrations` run: the event trace, the committed
rows of `applied_migrations` (each insert is followed by its own commit, so
on an aborting error the ledger reflects exactly the completed entries), and
the raised error, if any. -/
structure ApplyResult where
  events : List Event
  ledger : List String
  error  : Option MigError
deriving DecidableEq, Repr

/-- The entry loop `for mig in migrations_list:` of `BaseDB._apply_migrations`
(basedb.py lines 202–228).  `applied` is the snapshot read once by
`_applied_versions`; `ledger` is the current committed table content. -/
def applyLoop (applied : List String) : List Migration → List String → ApplyResult
  | [], ledger => ⟨[], ledger, none⟩
  | mig :: rest, ledger =>
    if nameFalsy mig.name then ⟨[], ledger, some .missingName⟩
    else
      let name := mig.name.getD ""
      if name ∈ applied then applyLoop applied rest ledger
      else
        match mig.sql with
        | some (s, .fail) => ⟨[.execScript s], ledger, some (.scriptFailed name)⟩
        | some (s, .ok) =>
          let r := applyLoop applied rest (ledger ++ [name])
          ⟨.execScript s :: .insertLedger name :: .commit :: r.events, r.ledger, r.error⟩
        | none =>
          match mig.func with
          | none => ⟨[], ledger, some (.noAction name)⟩
          | some f =>
            if f.callable = false then ⟨[], ledger, some (.notCallable name)⟩
            else
              match f.outcome with
              | .fail => ⟨[.callFunction name], ledger, some (.functionFailed name)⟩
              | .ok =>
                let r := applyLoop applied rest (ledger ++ [name])
                ⟨.callFunction name :: .insertLedger name :: .commit :: r.events,
                  r.ledger, r.error⟩

/-- Duplicate test `names.count(name) > 1` over `names = [mig.get("name") for mig in ...]`. -/
def hasDuplicates (names : List (Option String)) : Bool :=
  names.any (fun n => decide (1 < names.count n))

/-- Function `BaseDB._apply_migrations` (basedb.py lines 194–228): the duplicate-name
check runs before the ledger is read; everything else happens inside the
per-entry loop.  The applied-set snapshot equals the ledger at entry. -/
def applyMigrations (migs : List Migration) (ledger : List String) : ApplyResult :=
  if hasDuplicates (migs.map Migration.name) then ⟨[], ledger, some .duplicateNames⟩
  else applyLoop ledger migs ledger

/-- The persistent-plus-instance state that `init` manipulates: the ledger
stored in the file and the instance's `initialized` flag. -/
structure InitState where
  ledger : List String
  initialized : Bool
deriving DecidableEq, Repr

/-- Method `BaseDB.init` (basedb.py lines 142–150), migration part: connect, ensure
the ledger table, apply migrations; `initialized = True` is reached only when
`_apply_migrations` did not raise. -/
def initDB (migs : List Migration) (st : InitState) :
    InitState × List Event × Option MigError :=
  let r := applyMigrations migs st.ledger
  match r.error with
  | some e => (⟨r.ledger, st.initialized⟩, r.events, some e)
  | none   => (⟨r.ledger, true⟩, r.events, none)

/-! ### Spec-side trace (for the refinement statements of C2/C3/C4)

`specEntryEvents` renders the spec's description of one entry: skip if its
name is in the applied set, otherwise run the action and then insert-and-
commit its ledger row before the next entry.
-/

/-- Events of running an entry's action (the branch actually taken by the
code: `sql` wins when both kinds are present). -/
def entryActionEvents (m : Migration) : List Event :=
  match m.sql with
  | some (s, _) => [.execScript s]
  | none =>
    match m.func with
    | some _ => [.callFunction (m.name.getD "")]
    | none => []

def specEntryEvents (applied : List String) (m : Migration) : List Event :=
  if (m.name.getD "") ∈ applied then []
  else entryActionEvents m ++ [.insertLedger (m.name.getD ""), .commit]

def specTrace (applied : List String) (migs : List Migration) : List Event :=
  (migs.map (specEntryEvents applied)).flatten

/-- Names inserted into the ledger by a fully successful run. -/
def insertedNames (applied : List String) (migs : List Migration) : List String :=
  (migs.filter (fun m => decide ((m.name.getD "") ∉ applied))).map (fun m => m.name.getD "")

/-- An entry the loop gets past without raising: non-falsy name, and either
already applied or an action that succeeds. -/
def migOk (applied : List String) (m : Migration) : Bool :=
  !(nameFalsy m.name) &&
    (decide ((m.name.getD "") ∈ applied) ||
      (match m.sql with
       | some (_, o) => decide (o = .ok)
       | none =>
         match m.func with
         | some f => f.callable && decide (f.outcome = .ok)
         | none => false))

/-- Events produced by a bad entry before its error is raised. -/
def failEvents (m : Migration) : List Event :=
  if nameFalsy m.name then []
  else
    match m.sql with
    | some (s, _) => [.execScript s]
    | none =>
      match m.func with
      | some f => if f.callable then [.callFunction (m.name.getD "")] else []
      | none => []

/-- The error a bad entry raises. -/
def errOf (m : Migration) : MigError :=
  if nameFalsy m.name then .missingName
  else
    match m.sql with
    | some _ => .scriptFailed (m.name.getD "")
    | none =>
      match m.func with
      | some f =>
        if f.callable then .functionFailed (m.name.getD "") else .notCallable (m.name.getD "")
      | none => .noAction (m.name.getD "")

/-! ### Unfolding lemmas for `applyLoop`, one per branch of the loop body. -/

theorem applyLoop_nil (applied ledger : List String) :
    applyLoop applied [] ledger = ⟨[], ledger, none⟩ := rfl

theorem applyLoop_cons_falsy (applied : List String) (m : Migration) (rest : List Migration)
    (ledger : List String) (h : nameFalsy m.name = true) :
    applyLoop applied (m :: rest) ledger = ⟨[], ledger, some .missingName⟩ := by
  simp [applyLoop, h]

theorem applyLoop_cons_skip (applied : List String) (m : Migration) (rest : List Migration)
    (ledger : List String) (h : nameFalsy m.name = false) (h2 : m.name.getD "" ∈ applied) :
    applyLoop applied (m :: rest) ledger = applyLoop applied rest ledger := by
  simp [applyLoop, h, h2]

theorem applyLoop_cons_script_fail (applied : List String) (m : Migration)
    (rest : List Migration) (ledger : List String) (s : String)
    (h : nameFalsy m.name = false) (h2 : m.name.getD "" ∉ applied)
    (hs : m.sql = some (s, .fail)) :
    applyLoop applied (m :: rest) ledger =
      ⟨[.execScript s], ledger, some (.scriptFailed (m.name.getD ""))⟩ := by
  simp [applyLoop, h, h2, hs]

theorem applyLoop_cons_script_ok (applied : List String) (m : Migration)
    (rest : List Migration) (ledger : List String) (s : String)
    (h : nameFalsy m.name = false) (h2 : m.name.getD "" ∉ applied)
    (hs : m.sql = some (s, .ok)) :
    applyLoop applied (m :: rest) ledger =
      ⟨.execScript s :: .insertLedger (m.name.getD "") :: .commit ::
          (applyLoop applied rest (ledger ++ [m.name.getD ""])).events,
        (applyLoop applied rest (ledger ++ [m.name.getD ""])).ledger,
        (applyLoop applied rest (ledger ++ [m.name.getD ""])).error⟩ := by
  simp [applyLoop, h, h2, hs]

theorem applyLoop_cons_noaction (applied : List String) (m : Migration)
    (rest : List Migration) (ledger : List String)
    (h : nameFalsy m.name = false) (h2 : m.name.getD "" ∉ applied)
    (hs : m.sql = none) (hf : m.func = none) :
    applyLoop applied (m :: rest) ledger =
      ⟨[], ledger, some (.noAction (m.name.getD ""))⟩ := by
  simp [applyLoop, h, h2, hs, hf]

theorem applyLoop_cons_notcallable (applied : List String) (m : Migration)
    (rest : List Migration) (ledger : List String) (f : MigFunction)
    (h : nameFalsy m.name = false) (h2 : m.name.getD "" ∉ applied)
    (hs : m.sql = none) (hf : m.func = some f) (hc : f.callable = false) :
    applyLoop applied (m :: rest) ledger =
      ⟨[], ledger, some (.notCallable (m.name.getD ""))⟩ := by
  simp [applyLoop, h, h2, hs, hf, hc]

theorem applyLoop_cons_func_fail (applied : List String) (m : Migration)
    (rest : List Migration) (ledger : List String) (f : MigFunction)
    (h : nameFalsy m.name = false) (h2 : m.name.getD "" ∉ applied)
    (hs : m.sql = none) (hf : m.func = some f) (hc : f.callable = true)
    (ho : f.outcome = .fail) :
    applyLoop applied (m :: rest) ledger =
      ⟨[.callFunction (m.name.getD "")], ledger,
        some (.functionFailed (m.name.getD ""))⟩ := by
  simp [applyLoop, h, h2, hs, hf, hc, ho]

theorem applyLoop_cons_func_ok (applied : List String) (m : Migration)
    (rest : List Migration) (ledger : List String) (f : MigFunction)
    (h : nameFalsy m.name = false) (h2 : m.name.getD "" ∉ applied)
    (hs : m.sql = none) (hf : m.func = some f) (hc : f.callable = true)
    (ho : f.outcome = .ok) :
    applyLoop applied (m :: rest) ledger =
      ⟨.callFunction (m.name.getD "") :: .insertLedger (m.name.getD "") :: .commit ::
          (applyLoop applied rest (ledger ++ [m.name.getD ""])).events,
        (applyLoop applied rest (ledger ++ [m.name.getD ""])).ledger,
        (applyLoop applied rest (ledger ++ [m.name.getD ""])).error⟩ := by
  simp [applyLoop, h, h2, hs, hf, hc, ho]

/-! ### Spec-side unfolding lemmas. -/

theorem specTrace_nil (applied : List String) : specTrace applied [] = [] := rfl

theorem specTrace_cons (applied : List String) (m : Migration) (rest : List Migration) :
    specTrace applied (m :: rest) =
      specEntryEvents applied m ++ specTrace applied rest := rfl

theorem insertedNames_nil (applied : List String) : insertedNames applied [] = [] := rfl

theorem insertedNames_cons_mem (applied : List String) (m : Migration)
    (rest : List Migration) (h2 : m.name.getD "" ∈ applied) :
    insertedNames applied (m :: rest) = insertedNames applied rest := by
  simp [insertedNames, h2]

theorem insertedNames_cons_new (applied : List String) (m : Migration)
    (rest : List Migration) (h2 : m.name.getD "" ∉ applied) :
    insertedNames applied (m :: rest) = m.name.getD "" :: insertedNames applied rest := by
  simp [insertedNames, h2]

theorem specEntryEvents_mem (applied : List String) (m : Migration)
    (h2 : m.name.getD "" ∈ applied) : specEntryEvents applied m = [] := by
  simp [specEntryEvents, h2]

/-! ### Decomposition: every run of the loop is either a full success with the
spec-mandated trace and ledger, or proceeds through a well-behaved prefix and
stops with the first bad entry's error, having committed exactly the prefix's
rows. -/

theorem applyLoop_decomp (applied : List String) (migs : List Migration) :
    ∀ ledger : List String,
    ((∀ m ∈ migs, migOk applied m = true) ∧
      applyLoop applied migs ledger =
        ⟨specTrace applied migs, ledger ++ insertedNames applied migs, none⟩)
    ∨ (∃ pre bad rest2, migs = pre ++ bad :: rest2 ∧
        (∀ m ∈ pre, migOk applied m = true) ∧ migOk applied bad = false ∧
        applyLoop applied migs ledger =
          ⟨specTrace applied pre ++ failEvents bad, ledger ++ insertedNames applied pre,
            some (errOf bad)⟩) := by
  induction migs with
  | nil =>
    intro ledger
    left
    exact ⟨by simp, by simp [applyLoop_nil, specTrace_nil, insertedNames_nil]⟩
  | cons m rest ih =>
    intro ledger
    by_cases h1 : nameFalsy m.name = true
    · right
      refine ⟨[], m, rest, by simp, by simp, by simp [migOk, h1], ?_⟩
      rw [applyLoop_cons_falsy applied m rest ledger h1]
      simp [specTrace_nil, insertedNames_nil, failEvents, errOf, h1]
    · rw [Bool.not_eq_true] at h1
      by_cases h2 : m.name.getD "" ∈ applied
      · -- entry already applied: skipped
        rw [applyLoop_cons_skip applied m rest ledger h1 h2]
        rcases ih ledger with ⟨hok, heq⟩ | ⟨pre, bad, rest2, hsplit, hpre, hbad, heq⟩
        · left
          refine ⟨?_, ?_⟩
          · intro x hx
            rcases List.mem_cons.mp hx with hx | hx
            · subst hx; simp [migOk, h1, h2]
            · exact hok x hx
          · rw [heq, specTrace_cons, specEntryEvents_mem applied m h2,
              insertedNames_cons_mem applied m rest h2]
            simp
        · right
          refine ⟨m :: pre, bad, rest2, by simp [hsplit], ?_, hbad, ?_⟩
          · intro x hx
            rcases List.mem_cons.mp hx with hx | hx
            · subst hx; simp [migOk, h1, h2]
            · exact hpre x hx
          · rw [heq, specTrace_cons, specEntryEvents_mem applied m h2,
              insertedNames_cons_mem applied m pre h2]
            simp
      · cases hsql : m.sql with
        | some p =>
          obtain ⟨s, o⟩ := p
          cases o with
          | fail =>
            right
            refine ⟨[], m, rest, by simp, by simp, by simp [migOk, h1, h2, hsql], ?_⟩
            rw [applyLoop_cons_script_fail applied m rest ledger s h1 h2 hsql]
            simp [specTrace_nil, insertedNames_nil, failEvents, errOf, h1, hsql]
          | ok =>
            rw [applyLoop_cons_script_ok applied m rest ledger s h1 h2 hsql]
            rcases ih (ledger ++ [m.name.getD ""]) with ⟨hok, heq⟩ |
              ⟨pre, bad, rest2, hsplit, hpre, hbad, heq⟩
            · left
              refine ⟨?_, ?_⟩
              · intro x hx
                rcases List.mem_cons.mp hx with hx | hx
                · subst hx; simp [migOk, h1, h2, hsql]
                · exact hok x hx
              · rw [heq, specTrace_cons, insertedNames_cons_new applied m rest h2]
                simp [specEntryEvents, entryActionEvents, h2, hsql]
            · right
              refine ⟨m :: pre, bad, rest2, by simp [hsplit], ?_, hbad, ?_⟩
              · intro x hx
                rcases List.mem_cons.mp hx with hx | hx
                · subst hx; simp [migOk, h1, h2, hsql]
                · exact hpre x hx
              · rw [heq, specTrace_cons, insertedNames_cons_new applied m pre h2]
                simp [specEntryEvents, entryActionEvents, h2, hsql]
        | none =>
          cases hfunc : m.func with
          | none =>
            right
            refine ⟨[], m, rest, by simp, by simp,
              by simp [migOk, h1, h2, hsql, hfunc], ?_⟩
            rw [applyLoop_cons_noaction applied m rest ledger h1 h2 hsql hfunc]
            simp [specTrace_nil, insertedNames_nil, failEvents, errOf, h1, hsql, hfunc]
          | some f =>
            by_cases hc : f.callable = true
            · cases ho : f.outcome with
              | fail =>
                right
                refine ⟨[], m, rest, by simp, by simp,
                  by simp [migOk, h1, h2, hsql, hfunc, ho], ?_⟩
                rw [applyLoop_cons_func_fail applied m rest ledger f h1 h2 hsql hfunc hc ho]
                simp [specTrace_nil, insertedNames_nil, failEvents, errOf, h1, hsql, hfunc, hc]
              | ok =>
                rw [applyLoop_cons_func_ok applied m rest ledger f h1 h2 hsql hfunc hc ho]
                rcases ih (ledger ++ [m.name.getD ""]) with ⟨hok, heq⟩ |
                  ⟨pre, bad, rest2, hsplit, hpre, hbad, heq⟩
                · left
                  refine ⟨?_, ?_⟩
                  · intro x hx
                    rcases List.mem_cons.mp hx with hx | hx
                    · subst hx; simp [migOk, h1, h2, hsql, hfunc, hc, ho]
                    · exact hok x hx
                  · rw [heq, specTrace_cons, insertedNames_cons_new applied m rest h2]
                    simp [specEntryEvents, entryActionEvents, h2, hsql, hfunc]
                · right
                  refine ⟨m :: pre, bad, rest2, by simp [hsplit], ?_, hbad, ?_⟩
                  · intro x hx
                    rcases List.mem_cons.mp hx with hx | hx
                    · subst hx; simp [migOk, h1, h2, hsql, hfunc, hc, ho]
                    · exact hpre x hx
                  · rw [heq, specTrace_cons, insertedNames_cons_new applied m pre h2]
                    simp [specEntryEvents, entryActionEvents, h2, hsql, hfunc]
            · rw [Bool.not_eq_true] at hc
              right
              refine ⟨[], m, rest, by simp, by simp,
                by simp [migOk, h1, h2, hsql, hfunc, hc], ?_⟩
              rw [applyLoop_cons_notcallable applied m rest ledger f h1 h2 hsql hfunc hc]
              simp [specTrace_nil, insertedNames_nil, failEvents, errOf, h1, hsql, hfunc, hc]

/-! ### Derived facts about single entries and whole runs. -/

/-- A non-falsy name is `some s` for its `getD ""` value, and that value is
not empty. -/
theorem name_of_not_falsy (o : Option String) (h : nameFalsy o = false) :
    o = some (o.getD "") ∧ o.getD "" ≠ "" := by
  cases o with
  | none => simp [nameFalsy] at h
  | some s => simp [nameFalsy] at h; simpa using h

/-- A bad entry with a non-falsy name is not in the applied set (otherwise
it would have been skipped, i.e. counted as ok). -/
theorem migOk_false_not_mem (applied : List String) (m : Migration)
    (h1 : nameFalsy m.name = false) (hbad : migOk applied m = false) :
    m.name.getD "" ∉ applied := by
  intro hmem
  simp [migOk, h1, hmem] at hbad

/-- An ok entry never has a falsy name. -/
theorem migOk_not_falsy (applied : List String) (m : Migration)
    (h : migOk applied m = true) : nameFalsy m.name = false := by
  by_contra hf
  rw [Bool.not_eq_false] at hf
  simp [migOk, hf] at h

/-- The loop raises a bad entry's error as soon as it reaches it. -/
theorem applyLoop_cons_bad (applied : List String) (m : Migration)
    (rest : List Migration) (ledger : List String)
    (hbad : migOk applied m = false) :
    applyLoop applied (m :: rest) ledger = ⟨failEvents m, ledger, some (errOf m)⟩ := by
  by_cases h1 : nameFalsy m.name = true
  · rw [applyLoop_cons_falsy applied m rest ledger h1]
    simp [failEvents, errOf, h1]
  · rw [Bool.not_eq_true] at h1
    have h2 : m.name.getD "" ∉ applied := migOk_false_not_mem applied m h1 hbad
    cases hsql : m.sql with
    | some p =>
      obtain ⟨s, o⟩ := p
      cases o with
      | fail =>
        rw [applyLoop_cons_script_fail applied m rest ledger s h1 h2 hsql]
        simp [failEvents, errOf, h1, hsql]
      | ok => simp [migOk, h1, h2, hsql] at hbad
    | none =>
      cases hfunc : m.func with
      | none =>
        rw [applyLoop_cons_noaction applied m rest ledger h1 h2 hsql hfunc]
        simp [failEvents, errOf, h1, hsql, hfunc]
      | some f =>
        by_cases hc : f.callable = true
        · cases ho : f.outcome with
          | fail =>
            rw [applyLoop_cons_func_fail applied m rest ledger f h1 h2 hsql hfunc hc ho]
            simp [failEvents, errOf, h1, hsql, hfunc, hc]
          | ok => simp [migOk, h1, h2, hsql, hfunc, hc, ho] at hbad
        · rw [Bool.not_eq_true] at hc
          rw [applyLoop_cons_notcallable applied m rest ledger f h1 h2 hsql hfunc hc]
          simp [failEvents, errOf, h1, hsql, hfunc, hc]

/-- The loop gets past an ok entry: it emits that entry's spec events,
extends the ledger by that entry's inserted row (none when skipped), and
continues with the rest. -/
theorem applyLoop_cons_good (applied : List String) (m : Migration)
    (rest : List Migration) (ledger : List String)
    (hok : migOk applied m = true) :
    applyLoop applied (m :: rest) ledger =
      ⟨specEntryEvents applied m ++
          (applyLoop applied rest (ledger ++ insertedNames applied [m])).events,
        (applyLoop applied rest (ledger ++ insertedNames applied [m])).ledger,
        (applyLoop applied rest (ledger ++ insertedNames applied [m])).error⟩ := by
  have h1 : nameFalsy m.name = false := migOk_not_falsy applied m hok
  by_cases h2 : m.name.getD "" ∈ applied
  · rw [applyLoop_cons_skip applied m rest ledger h1 h2,
      specEntryEvents_mem applied m h2, insertedNames_cons_mem applied m [] h2,
      insertedNames_nil]
    simp
  · have hone : insertedNames applied [m] = [m.name.getD ""] := by
      rw [insertedNames_cons_new applied m [] h2, insertedNames_nil]
    cases hsql : m.sql with
    | some p =>
      obtain ⟨s, o⟩ := p
      cases o with
      | fail => simp [migOk, h1, h2, hsql] at hok
      | ok =>
        rw [applyLoop_cons_script_ok applied m rest ledger s h1 h2 hsql, hone]
        simp [specEntryEvents, entryActionEvents, h2, hsql]
    | none =>
      cases hfunc : m.func with
      | none => simp [migOk, h1, h2, hsql, hfunc] at hok
      | some f =>
        by_cases hc : f.callable = true
        · cases ho : f.outcome with
          | fail => simp [migOk, h1, h2, hsql, hfunc, hc, ho] at hok
          | ok =>
            rw [applyLoop_cons_func_ok applied m rest ledger f h1 h2 hsql hfunc hc ho, hone]
            simp [specEntryEvents, entryActionEvents, h2, hsql, hfunc]
        · rw [Bool.not_eq_true] at hc
          simp [migOk, h1, h2, hsql, hfunc, hc] at hok

/-- A run over ok entries succeeds and produces exactly the spec trace and
the declared-order ledger rows. -/
theorem applyLoop_all_ok (applied : List String) (migs : List Migration)
    (ledger : List String) (hok : ∀ m ∈ migs, migOk applied m = true) :
    applyLoop applied migs ledger =
      ⟨specTrace applied migs, ledger ++ insertedNames applied migs, none⟩ := by
  rcases applyLoop_decomp applied migs ledger with ⟨_, heq⟩ |
    ⟨pre, bad, rest2, hsplit, _, hbad, _⟩
  · exact heq
  · exact absurd (hok bad (by simp [hsplit])) (by simp [hbad])

/-- A run that raised no error got past every entry. -/
theorem all_ok_of_error_none (applied : List String) (migs : List Migration)
    (ledger : List String) (h : (applyLoop applied migs ledger).error = none) :
    ∀ m ∈ migs, migOk applied m = true := by
  rcases applyLoop_decomp applied migs ledger with ⟨hok, _⟩ |
    ⟨pre, bad, rest2, hsplit, hpre, hbad, heq⟩
  · exact hok
  · rw [heq] at h; simp at h

/-- The loop processes a well-behaved prefix and stops at the first bad
entry with exactly that entry's error, the prefix's trace, and the prefix's
committed rows. -/
theorem applyLoop_stops_at_bad (applied : List String) :
    ∀ (pre : List Migration) (bad : Migration) (rest : List Migration)
      (ledger : List String),
    (∀ m ∈ pre, migOk applied m = true) → migOk applied bad = false →
    applyLoop applied (pre ++ bad :: rest) ledger =
      ⟨specTrace applied pre ++ failEvents bad,
        ledger ++ insertedNames applied pre, some (errOf bad)⟩ := by
  intro pre
  induction pre with
  | nil =>
    intro bad rest ledger _ hbad
    rw [List.nil_append, applyLoop_cons_bad applied bad rest ledger hbad]
    simp [specTrace_nil, insertedNames_nil]
  | cons m pre2 ih =>
    intro bad rest ledger hpre hbad
    rw [List.cons_append,
      applyLoop_cons_good applied m (pre2 ++ bad :: rest) ledger
        (hpre m (by simp)),
      ih bad rest (ledger ++ insertedNames applied [m])
        (fun x hx => hpre x (by simp [hx])) hbad]
    have hmono : insertedNames applied (m :: pre2) =
        insertedNames applied [m] ++ insertedNames applied pre2 := by
      by_cases h2 : m.name.getD "" ∈ applied
      · rw [insertedNames_cons_mem applied m pre2 h2,
          insertedNames_cons_mem applied m [] h2, insertedNames_nil, List.nil_append]
      · rw [insertedNames_cons_new applied m pre2 h2,
          insertedNames_cons_new applied m [] h2, insertedNames_nil]
        simp
    rw [specTrace_cons, hmono]
    simp

/-- When the duplicate check passes, an element of the tail never repeats an
earlier name. -/
theorem not_mem_pre_of_not_hasDuplicates (pre : List (Option String))
    (b : Option String) (rest : List (Option String))
    (h : hasDuplicates (pre ++ b :: rest) = false) : b ∉ pre := by
  intro hb
  simp only [hasDuplicates, List.any_eq_false, decide_eq_true_eq, not_lt] at h
  have hcount := h b (by simp)
  rw [List.count_append, List.count_cons_self] at hcount
  have hpos : 0 < List.count b pre := List.count_pos_iff.mpr hb
  omega

/-- If every entry's name is already applied, no rows are inserted. -/
theorem insertedNames_all_mem (applied : List String) (migs : List Migration)
    (h : ∀ m ∈ migs, m.name.getD "" ∈ applied) :
    insertedNames applied migs = [] := by
  unfold insertedNames
  rw [List.map_eq_nil_iff, List.filter_eq_nil_iff]
  intro m hm
  simp [h m hm]

/-- If every entry's name is already applied, the spec trace is empty. -/
theorem specTrace_all_mem (applied : List String) (migs : List Migration)
    (h : ∀ m ∈ migs, m.name.getD "" ∈ applied) :
    specTrace applied migs = [] := by
  induction migs with
  | nil => exact specTrace_nil applied
  | cons m rest ih =>
    rw [specTrace_cons, specEntryEvents_mem applied m (h m (by simp)),
      ih (fun x hx => h x (by simp [hx]))]
    simp

/-- Which entry a `scriptFailed`/`functionFailed` error names. -/
theorem errOf_failed_name (m : Migration) (n : String)
    (h : errOf m = .scriptFailed n ∨ errOf m = .functionFailed n) :
    nameFalsy m.name = false ∧ m.name.getD "" = n := by
  by_cases h1 : nameFalsy m.name = true
  · simp [errOf, h1] at h
  · rw [Bool.not_eq_true] at h1
    refine ⟨h1, ?_⟩
    cases hsql : m.sql with
    | some p =>
      simp [errOf, h1, hsql] at h
      exact h
    | none =>
      cases hfunc : m.func with
      | none => simp [errOf, h1, hsql, hfunc] at h
      | some f =>
        by_cases hc : f.callable = true
        · simp [errOf, h1, hsql, hfunc, hc] at h
          exact h
        · rw [Bool.not_eq_true] at hc
          simp [errOf, h1, hsql, hfunc, hc] at h

/-- Names inserted by a run are names of its entries. -/
theorem insertedNames_sub (applied : List String) (migs : List Migration)
    (x : String) (hx : x ∈ insertedNames applied migs) :
    ∃ m ∈ migs, m.name.getD "" = x := by
  unfold insertedNames at hx
  rw [List.mem_map] at hx
  obtain ⟨m, hm, hmx⟩ := hx
  exact ⟨m, List.mem_of_mem_filter hm, hmx⟩

/-- Value of `initDB` on a run whose migration pass succeeds. -/
theorem initDB_of_error_none (migs : List Migration) (st : InitState)
    (h : (applyMigrations migs st.ledger).error = none) :
    initDB migs st =
      (⟨(applyMigrations migs st.ledger).ledger, true⟩,
        (applyMigrations migs st.ledger).events, none) := by
  simp [initDB, h]

/-- Value of `initDB` on a run whose migration pass raises. -/
theorem initDB_of_error_some (migs : List Migration) (st : InitState) (e : MigError)
    (h : (applyMigrations migs st.ledger).error = some e) :
    initDB migs st =
      (⟨(applyMigrations migs st.ledger).ledger, st.initialized⟩,
        (applyMigrations migs st.ledger).events, some e) := by
  simp [initDB, h]

/-! ### Concrete migration entries used by the witnesses. -/

def exMig1 : Migration := ⟨some "m1", some ("CREATE TABLE t(x INTEGER)", .ok), none⟩

def exMig2 : Migration := ⟨some "m2", none, some ⟨true, .ok⟩⟩

def exMigNoName : Migration := ⟨none, some ("CREATE TABLE u(y INTEGER)", .ok), none⟩

def exMigBoth : Migration := ⟨some "both", some ("CREATE TABLE b(z INTEGER)", .ok), some ⟨true, .ok⟩⟩

def exMigFail : Migration := ⟨some "bad", some ("BROKEN SQL", .fail), none⟩

/-! ## Claims C1–C4 -/

/-- C1, counterexample: the claim says every entry that does not have exactly
one of the two action kinds makes initialization fail with a configuration
error before anything executes.  For a single-entry list whose entry carries
BOTH `sql` and `function`, initialization instead executes the script,
records the ledger row, raises nothing, and marks the instance usable. -/
theorem both_action_kinds_not_rejected :
    initDB [exMigBoth] ⟨[], false⟩ =
      (⟨["both"], true⟩,
        [.execScript "CREATE TABLE b(z INTEGER)", .insertLedger "both", .commit],
        none) := by
  decide

/-- C1 (amended): only the duplicate-name check runs up front — a duplicated
name fails initialization with no entry executed and the ledger untouched.
A missing name, a missing action, or a non-callable callback is detected
only when its entry is reached in declared order: the well-behaved entries
before it have already executed and been recorded, and the run stops with
that entry's configuration error; an entry with both action kinds is not
rejected at all (its script simply runs — see the counterexample). -/
theorem duplicate_check_upfront_rest_lazy (migs : List Migration) (L : List String)
    (pre : List Migration) (bad : Migration) (rest : List Migration)
    (hdup1 : hasDuplicates (migs.map Migration.name) = true)
    (hdup2 : hasDuplicates ((pre ++ bad :: rest).map Migration.name) = false)
    (hpre : ∀ m ∈ pre, migOk L m = true)
    (hbad : migOk L bad = false) :
    initDB migs ⟨L, false⟩ = (⟨L, false⟩, [], some .duplicateNames) ∧
    initDB (pre ++ bad :: rest) ⟨L, false⟩ =
      (⟨L ++ insertedNames L pre, false⟩, specTrace L pre ++ failEvents bad,
        some (errOf bad)) := by
  constructor
  · have hAM : applyMigrations migs L = ⟨[], L, some .duplicateNames⟩ := by
      simp [applyMigrations, hdup1]
    rw [initDB_of_error_some migs ⟨L, false⟩ .duplicateNames (by rw [hAM])]
    rw [hAM]
  · have hAM : applyMigrations (pre ++ bad :: rest) L =
        ⟨specTrace L pre ++ failEvents bad, L ++ insertedNames L pre,
          some (errOf bad)⟩ := by
      rw [applyMigrations, hdup2]
      simp only [Bool.false_eq_true, if_false]
      exact applyLoop_stops_at_bad L pre bad rest L hpre hbad
    rw [initDB_of_error_some (pre ++ bad :: rest) ⟨L, false⟩ (errOf bad) (by rw [hAM])]
    rw [hAM]

theorem duplicate_check_upfront_rest_lazy_witness :
    initDB [exMig1, exMig1] ⟨[], false⟩ = (⟨[], false⟩, [], some .duplicateNames) ∧
    initDB ([exMig1] ++ exMigNoName :: []) ⟨[], false⟩ =
      (⟨[] ++ insertedNames [] [exMig1],
          false⟩, specTrace [] [exMig1] ++ failEvents exMigNoName,
        some (errOf exMigNoName)) :=
  duplicate_check_upfront_rest_lazy [exMig1, exMig1] [] [exMig1] exMigNoName []
    (by decide) (by decide) (by decide) (by decide)

/-- C2: if opening a fresh storage file with a migration list succeeds, every
declared name is a ledger row afterwards, and a second open of the same file
with the same list executes no action, inserts no row (its event trace is
empty) and raises no error. -/
theorem second_open_idempotent (migs : List Migration) (L0 : List String)
    (st1 : InitState) (ev1 : List Event)
    (h : initDB migs ⟨L0, false⟩ = (st1, ev1, none)) :
    (∀ m ∈ migs, ∃ s, m.name = some s ∧ s ∈ st1.ledger) ∧
    initDB migs ⟨st1.ledger, false⟩ = (⟨st1.ledger, true⟩, [], none) := by
  by_cases hdup : hasDuplicates (migs.map Migration.name) = true
  · have hAM : applyMigrations migs L0 = ⟨[], L0, some .duplicateNames⟩ := by
      simp [applyMigrations, hdup]
    rw [initDB_of_error_some migs ⟨L0, false⟩ .duplicateNames (by rw [hAM])] at h
    exact absurd (congrArg (fun p => p.2.2) h) (by simp)
  · rw [Bool.not_eq_true] at hdup
    have hAM : applyMigrations migs L0 = applyLoop L0 migs L0 := by
      simp [applyMigrations, hdup]
    cases herr : (applyMigrations migs L0).error with
    | some e =>
      rw [initDB_of_error_some migs ⟨L0, false⟩ e herr] at h
      exact absurd (congrArg (fun p => p.2.2) h) (by simp)
    | none =>
      have hok : ∀ m ∈ migs, migOk L0 m = true :=
        all_ok_of_error_none L0 migs L0 (by rw [← hAM]; exact herr)
      have hAM2 : applyMigrations migs L0 =
          ⟨specTrace L0 migs, L0 ++ insertedNames L0 migs, none⟩ := by
        rw [hAM, applyLoop_all_ok L0 migs L0 hok]
      rw [initDB_of_error_none migs ⟨L0, false⟩ herr, hAM2] at h
      have hst1 : st1 = ⟨L0 ++ insertedNames L0 migs, true⟩ :=
        (congrArg (fun p => p.1) h).symm
      have hmemAll : ∀ m ∈ migs, m.name.getD "" ∈ st1.ledger := by
        intro m hm
        rw [hst1]
        by_cases hL0 : m.name.getD "" ∈ L0
        · exact List.mem_append.mpr (Or.inl hL0)
        · refine List.mem_append.mpr (Or.inr ?_)
          unfold insertedNames
          rw [List.mem_map]
          exact ⟨m, List.mem_filter.mpr ⟨hm, by simp [hL0]⟩, rfl⟩
      refine ⟨?_, ?_⟩
      · intro m hm
        exact ⟨m.name.getD "",
          (name_of_not_falsy m.name (migOk_not_falsy L0 m (hok m hm))).1,
          hmemAll m hm⟩
      · have hok2 : ∀ m ∈ migs, migOk st1.ledger m = true := by
          intro m hm
          have h1 := migOk_not_falsy L0 m (hok m hm)
          simp [migOk, h1, hmemAll m hm]
        have hAM3 : applyMigrations migs st1.ledger =
            ⟨[], st1.ledger, none⟩ := by
          have := applyLoop_all_ok st1.ledger migs st1.ledger hok2
          rw [specTrace_all_mem st1.ledger migs hmemAll,
            insertedNames_all_mem st1.ledger migs hmemAll, List.append_nil] at this
          rw [applyMigrations, hdup]
          simpa using this
        rw [initDB_of_error_none migs ⟨st1.ledger, false⟩ (by rw [hAM3]), hAM3]

theorem second_open_idempotent_witness :
    (∀ m ∈ [exMig1, exMig2], ∃ s, m.name = some s ∧
        s ∈ (InitState.mk ["m1", "m2"] true).ledger) ∧
    initDB [exMig1, exMig2] ⟨(InitState.mk ["m1", "m2"] true).ledger, false⟩ =
      (⟨(InitState.mk ["m1", "m2"] true).ledger, true⟩, [], none) :=
  second_open_idempotent [exMig1, exMig2] [] ⟨["m1", "m2"], true⟩
    [.execScript "CREATE TABLE t(x INTEGER)", .insertLedger "m1", .commit,
      .callFunction "m2", .insertLedger "m2", .commit] (by decide)

/-- C3: with the duplicate pre-check passed, the run processes entries in
declared order — each entry whose name is in the applied snapshot is skipped,
each other entry has its action run (script as one multi-statement execution,
callback invoked and awaited) and then its ledger row inserted and committed
before the next entry — either through the whole list, or up to the first
failing entry (whose handling is claim C4). -/
theorem migrations_in_declared_order (migs : List Migration) (L : List String)
    (hdup : hasDuplicates (migs.map Migration.name) = false) :
    ((∀ m ∈ migs, migOk L m = true) ∧
      applyMigrations migs L =
        ⟨specTrace L migs, L ++ insertedNames L migs, none⟩)
    ∨ (∃ pre bad rest, migs = pre ++ bad :: rest ∧
        (∀ m ∈ pre, migOk L m = true) ∧ migOk L bad = false ∧
        applyMigrations migs L =
          ⟨specTrace L pre ++ failEvents bad, L ++ insertedNames L pre,
            some (errOf bad)⟩) := by
  have hAM : applyMigrations migs L = applyLoop L migs L := by
    simp [applyMigrations, hdup]
  rw [hAM]
  exact applyLoop_decomp L migs L

theorem migrations_in_declared_order_witness :
    ((∀ m ∈ [exMig1, exMig2], migOk ["m1"] m = true) ∧
      applyMigrations [exMig1, exMig2] ["m1"] =
        ⟨specTrace ["m1"] [exMig1, exMig2],
          ["m1"] ++ insertedNames ["m1"] [exMig1, exMig2], none⟩)
    ∨ (∃ pre bad rest, [exMig1, exMig2] = pre ++ bad :: rest ∧
        (∀ m ∈ pre, migOk ["m1"] m = true) ∧ migOk ["m1"] bad = false ∧
        applyMigrations [exMig1, exMig2] ["m1"] =
          ⟨specTrace ["m1"] pre ++ failEvents bad,
            ["m1"] ++ insertedNames ["m1"] pre, some (errOf bad)⟩) :=
  migrations_in_declared_order [exMig1, exMig2] ["m1"] (by decide)

/-- C4: if the migration pass of `init` raises, the instance is not marked
usable, the rows committed before the failure (in this run or earlier ones)
all remain, and the ledger row of the entry whose action failed is absent —
so that entry is retried by a later open. -/
theorem failed_migration_aborts (migs : List Migration) (L : List String)
    (st' : InitState) (ev : List Event) (e : MigError)
    (h : initDB migs ⟨L, false⟩ = (st', ev, some e)) :
    st'.initialized = false ∧
    (∃ newRows, st'.ledger = L ++ newRows) ∧
    (∀ n, (e = .scriptFailed n ∨ e = .functionFailed n) → n ∉ st'.ledger) := by
  by_cases hdup : hasDuplicates (migs.map Migration.name) = true
  · have hAM : applyMigrations migs L = ⟨[], L, some .duplicateNames⟩ := by
      simp [applyMigrations, hdup]
    rw [initDB_of_error_some migs ⟨L, false⟩ .duplicateNames (by rw [hAM]), hAM] at h
    have hst : st' = ⟨L, false⟩ := (congrArg (fun p => p.1) h).symm
    have he : MigError.duplicateNames = e :=
      Option.some.inj (congrArg (fun p => p.2.2) h)
    refine ⟨by rw [hst], ⟨[], by rw [hst]; simp⟩, ?_⟩
    intro n hn
    rw [← he] at hn
    rcases hn with hn | hn <;> simp at hn
  · rw [Bool.not_eq_true] at hdup
    have hAM : applyMigrations migs L = applyLoop L migs L := by
      simp [applyMigrations, hdup]
    cases herr : (applyMigrations migs L).error with
    | none =>
      rw [initDB_of_error_none migs ⟨L, false⟩ herr] at h
      exact absurd (congrArg (fun p => p.2.2) h) (by simp)
    | some e0 =>
      rw [initDB_of_error_some migs ⟨L, false⟩ e0 herr] at h
      have hst : st' = ⟨(applyMigrations migs L).ledger, false⟩ :=
        (congrArg (fun p => p.1) h).symm
      have he : e0 = e := Option.some.inj (congrArg (fun p => p.2.2) h)
      rcases applyLoop_decomp L migs L with ⟨_, heq⟩ |
        ⟨pre, bad, rest, hsplit, hpre, hbad, heq⟩
      · rw [hAM, heq] at herr; simp at herr
      · have hledger : (applyMigrations migs L).ledger = L ++ insertedNames L pre := by
          rw [hAM, heq]
        have he0 : e0 = errOf bad := by
          have := herr
          rw [hAM, heq] at this
          exact (Option.some.inj this).symm
        refine ⟨by rw [hst], ⟨insertedNames L pre, by rw [hst, hledger]⟩, ?_⟩
        intro n hn
        rw [← he, he0] at hn
        obtain ⟨hbf, hbn⟩ := errOf_failed_name bad n hn
        have hnotL : n ∉ L := by
          rw [← hbn]
          exact migOk_false_not_mem L bad hbf hbad
        have hnotIns : n ∉ insertedNames L pre := by
          intro hmem
          obtain ⟨m, hmpre, hmn⟩ := insertedNames_sub L pre n hmem
          have hmf := migOk_not_falsy L m (hpre m hmpre)
          have hmname : m.name = some n := by
            rw [(name_of_not_falsy m.name hmf).1, hmn]
          have hbname : bad.name = some n := by
            rw [(name_of_not_falsy bad.name hbf).1, hbn]
          have hdup2 : hasDuplicates
              (pre.map Migration.name ++ bad.name :: rest.map Migration.name) = false := by
            have : migs.map Migration.name =
                pre.map Migration.name ++ bad.name :: rest.map Migration.name := by
              rw [hsplit]; simp
            rw [← this]; exact hdup
          exact not_mem_pre_of_not_hasDuplicates (pre.map Migration.name) bad.name
            (rest.map Migration.name) hdup2
            (by rw [hbname, ← hmname]; exact List.mem_map_of_mem Migration.name hmpre)
        rw [hst]
        simp only [List.mem_append, hledger]
        rintro (hc | hc)
        · exact hnotL hc
        · exact hnotIns hc

theorem failed_migration_aborts_witness :
    (InitState.mk ["m1"] false).initialized = false ∧
    (∃ newRows, (InitState.mk ["m1"] false).ledger = [] ++ newRows) ∧
    (∀ n, (MigError.scriptFailed "bad" = .scriptFailed n ∨
        MigError.scriptFailed "bad" = .functionFailed n) →
      n ∉ (InitState.mk ["m1"] false).ledger) :=
  failed_migration_aborts [exMig1, exMigFail] [] ⟨["m1"], false⟩
    [.execScript "CREATE TABLE t(x INTEGER)", .insertLedger "m1", .commit,
      .execScript "BROKEN SQL"] (.scriptFailed "bad") (by decide)

/-! ## Task scheduler: interval loops

`BaseDB.init` (basedb.py lines 152–171) starts, per periodic spec, the task

    while True:
        await method()          -- the action runs FIRST
        await asyncio.sleep(seconds)

Embedding: time is abstract `Nat` units measured from loop start; `dur k` is
the duration of the `k`-th invocation of the action.  The `k`-th invocation
starts at `fireStart`, ends `dur k` later, and the next one starts after a
further full interval of sleeping.
-/

def fireStart (seconds : Nat) (dur : Nat → Nat) : Nat → Nat
  | 0 => 0
  | k + 1 => fireStart seconds dur k + dur k + seconds

def fireEnd (seconds : Nat) (dur : Nat → Nat) (k : Nat) : Nat :=
  fireStart seconds dur k + dur k

/-- C5, counterexample: the claim says the loop never fires before the first
interval has elapsed after startup.  The loop body runs the action before its
first sleep, so the very first invocation starts at time 0 — for an interval
of 5 units (0.05 scaled by 100) the claimed bound `interval ≤ first fire`
fails. -/
theorem fires_before_first_interval :
    ¬ (∀ (seconds : Nat) (dur : Nat → Nat), 0 < seconds →
        seconds ≤ fireStart seconds dur 0) := by
  intro h
  have := h 5 (fun _ => 0) (by decide)
  simp [fireStart] at this

/-- C5 (amended): the loop fires immediately at startup (time 0, before any
interval has elapsed) and thereafter only after the previous invocation
completes plus a full interval of sleep.  With the first invocation
instantaneous, any observation window longer than two periods still sees at
least two distinct firings (at 0 and at one period), and invocations of the
same spec never overlap: each ends no later than — in fact strictly before —
the next begins. -/
theorem interval_loop_schedule (seconds w : Nat) (dur : Nat → Nat)
    (hs : 0 < seconds) (hw : 2 * seconds < w) (hd0 : dur 0 = 0) :
    fireStart seconds dur 0 = 0 ∧
    (fireStart seconds dur 0 < w ∧ fireStart seconds dur 1 < w ∧
      fireStart seconds dur 0 < fireStart seconds dur 1) ∧
    (∀ k, fireEnd seconds dur k < fireStart seconds dur (k + 1)) := by
  refine ⟨rfl, ⟨?_, ?_, ?_⟩, ?_⟩
  · show (0 : Nat) < w; omega
  · show fireStart seconds dur 0 + dur 0 + seconds < w
    rw [hd0]; show 0 + 0 + seconds < w; omega
  · show fireStart seconds dur 0 < fireStart seconds dur 0 + dur 0 + seconds; omega
  · intro k
    show fireStart seconds dur k + dur k < fireStart seconds dur k + dur k + seconds
    omega

theorem interval_loop_schedule_witness :
    fireStart 5 (fun _ => 0) 0 = 0 ∧
    (fireStart 5 (fun _ => 0) 0 < 12 ∧ fireStart 5 (fun _ => 0) 1 < 12 ∧
      fireStart 5 (fun _ => 0) 0 < fireStart 5 (fun _ => 0) 1) ∧
    (∀ k, fireEnd 5 (fun _ => 0) k < fireStart 5 (fun _ => 0) (k + 1)) :=
  interval_loop_schedule 5 12 (fun _ => 0) (by decide) (by decide) rfl

/-! ## Task scheduler: query hooks

`BaseDB._on_query` (basedb.py lines 246–269): each completed data operation
increments every hook's counter; a counter that reaches its threshold is set
back to 0 immediately — before and independently of the launched task — and
the action is started as a concurrent task appended to `_query_tasks` without
being awaited.  `fired` counts launches.
-/

structure QueryHook where
  interval : Nat
  count : Nat
  fired : Nat
deriving DecidableEq, Repr

/-- One hook's share of `_on_query`. -/
def onQuery (h : QueryHook) : QueryHook :=
  let c := h.count + 1
  if h.interval ≤ c then { h with count := 0, fired := h.fired + 1 }
  else { h with count := c }

/-- Effect of `n` consecutive completed data operations. -/
def runOps (h : QueryHook) : Nat → QueryHook
  | 0 => h
  | n + 1 => runOps (onQuery h) n

theorem runOps_add (a : Nat) : ∀ (b : Nat) (h : QueryHook),
    runOps h (a + b) = runOps (runOps h a) b := by
  induction a with
  | zero => intro b h; rw [Nat.zero_add]; rfl
  | succ a ih =>
    intro b h
    have hs : a + 1 + b = (a + b) + 1 := by omega
    rw [hs]
    show runOps (onQuery h) (a + b) = runOps (runOps (onQuery h) a) b
    exact ih b (onQuery h)

theorem runOps_below (n : Nat) :
    ∀ (k c f : Nat), c + k < n →
    runOps ⟨n, c, f⟩ k = ⟨n, c + k, f⟩ := by
  intro k
  induction k with
  | zero => intro c f _; rfl
  | succ k ih =>
    intro c f hk
    show runOps (onQuery ⟨n, c, f⟩) k = _
    have hlt : ¬ n ≤ c + 1 := by omega
    rw [show onQuery ⟨n, c, f⟩ = ⟨n, c + 1, f⟩ by simp [onQuery, hlt]]
    rw [ih (c + 1) f (by omega)]
    congr 1
    omega

/-- C6: for a hook with positive threshold `n`, each of the first `n - 1`
completed operations only increments the counter (no firing), and the `n`-th
operation resets the counter to zero in the same step in which the action is
launched — after exactly `n` operations the hook has fired exactly once and
its counter is zero. -/
theorem hook_fires_once_at_threshold (n : Nat) (hn : 0 < n) :
    (∀ k, k < n → runOps ⟨n, 0, 0⟩ k = ⟨n, k, 0⟩) ∧
    runOps ⟨n, 0, 0⟩ n = ⟨n, 0, 1⟩ := by
  constructor
  · intro k hk
    have := runOps_below n k 0 0 (by omega)
    simpa using this
  · cases n with
    | zero => omega
    | succ m =>
      rw [runOps_add m 1 ⟨m + 1, 0, 0⟩,
        show runOps ⟨m + 1, 0, 0⟩ m = ⟨m + 1, m, 0⟩ by
          simpa using runOps_below (m + 1) m 0 0 (by omega)]
      show onQuery ⟨m + 1, m, 0⟩ = ⟨m + 1, 0, 1⟩
      simp [onQuery]

theorem hook_fires_once_at_threshold_witness :
    (∀ k, k < 2 → runOps ⟨2, 0, 0⟩ k = ⟨2, k, 0⟩) ∧
    runOps ⟨2, 0, 0⟩ 2 = ⟨2, 0, 1⟩ :=
  hook_fires_once_at_threshold 2 (by decide)

/-! ## Instance lifecycle: `require_init`, data operations, `close`

`DBLife` models the per-instance attributes the guard and shutdown path
read and write: `initialized`, `conn` (`none` = the attribute is `None`;
`some b` = a connection object whose underlying handle is open iff `b`),
and the two task registries.  Tasks are modelled by their status; asyncio's
`task.cancel()` followed by `await task` drives a running task to a terminal
state (`cancelJoin`).
-/

inductive TaskStatus where
  | running
  | cancelled
  | completed
deriving DecidableEq, Repr

structure DBLife where
  initialized : Bool
  conn : Option Bool
  periodicTasks : List TaskStatus
  queryTasks : List TaskStatus
deriving DecidableEq, Repr

/-- Constructor `BaseDB.__init__`: no connection, not initialized, empty registries. -/
def newDB : DBLife := ⟨false, none, [], []⟩

inductive DBError where
  | notReady
deriving DecidableEq, Repr

/-- The decorator `require_init` (basedb.py lines 15–40): every wrapper
variant raises `RuntimeError("you didn't call init")` when
`not self.initialized or self.conn is None`, and only otherwise runs the
wrapped method body. -/
def requireInit {α : Type} (st : DBLife) (body : DBLife → α) : Except DBError α :=
  if st.initialized = false ∨ st.conn = none then .error .notReady
  else .ok (body st)

/-- The guarded data operations of `BaseDB`. -/
inductive DataOp where
  | execute
  | executeMany
  | insertOne
  | insertMany
  | upsertOne
  | upsertMany
  | deleteOne
  | deleteMany
  | queryMany
  | queryManyGen
  | queryOne
deriving DecidableEq, Repr

/-- The storage-engine call at the heart of each operation's body (reached
only past the guard). -/
def engineCall : DataOp → String
  | .execute => "conn.execute"
  | .executeMany => "conn.executemany"
  | .insertOne => "conn.execute RETURNING"
  | .insertMany => "conn.executemany"
  | .upsertOne => "conn.execute ON CONFLICT"
  | .upsertMany => "conn.executemany ON CONFLICT"
  | .deleteOne => "conn.execute DELETE"
  | .deleteMany => "conn.execute DELETE"
  | .queryMany => "conn.execute fetchall"
  | .queryManyGen => "conn.execute iterate"
  | .queryOne => "conn.execute fetchone"

/-- A data operation: the guard first, then (abstractly) the engine call. -/
def runDataOp (op : DataOp) (st : DBLife) : Except DBError (DBLife × String) :=
  requireInit st (fun s => (s, engineCall op))

/-- In asyncio, `task.cancel()` then `await task` leaves the task cancelled
(if it was still running) or in whatever terminal state it already had. -/
def cancelJoin : TaskStatus → TaskStatus
  | .running => .cancelled
  | .cancelled => .cancelled
  | .completed => .completed

/-- The loop `for task in self._periodic_tasks:` of `BaseDB.close`
(basedb.py line 512) iterates the LIVE registry list: the iterator keeps an
index `i` and yields `tasks[i]` while `i` is in range.  Cancelling the
yielded task completes it, which runs the `_cleanup` done-callback that
`init` registered at creation (basedb.py lines 167–171); asyncio runs done
callbacks in registration order, so `_cleanup` removes the task from the
list — shifting later tasks one slot left — before the `await task` in
`close` resumes, and only then does the iterator advance to `i + 1`.
Returns the tasks still in the list when iteration stops (these were never
yielded, hence never cancelled) together with the terminal statuses the
loop awaited. -/
def cancelLiveLoop (i : Nat) (tasks : List TaskStatus) :
    List TaskStatus × List TaskStatus :=
  if h : i < tasks.length then
    let t := tasks.get ⟨i, h⟩
    let r := cancelLiveLoop (i + 1) (tasks.eraseIdx i)
    (r.1, cancelJoin t :: r.2)
  else (tasks, [])
termination_by tasks.length - i
decreasing_by
  have hlen := List.length_eraseIdx (l := tasks) (i := i)
  simp [h] at hlen
  omega

/-- What a `close` call awaited and what it left behind: `joined` are the
terminal statuses reached by the tasks it cancelled and awaited; `leaked`
are the tasks the live-list iteration skipped — dropped from the registry by
`clear()` but never cancelled, so still running afterwards. -/
structure CloseLog where
  joined : List TaskStatus
  leaked : List TaskStatus
deriving DecidableEq, Repr

/-- Method `BaseDB.close` (basedb.py lines 507–525): guarded by
`require_init`.  The periodic loop iterates the live `_periodic_tasks` list
(`cancelLiveLoop`), then the registry is cleared; the hook-task loop
iterates `list(self._query_tasks)` — a copy — so every hook task is
cancelled and awaited; then the connection is closed (the attribute stays
set) and `initialized` is reset. -/
def close (st : DBLife) : Except DBError (DBLife × CloseLog) :=
  requireInit st (fun s =>
    let p := cancelLiveLoop 0 s.periodicTasks
    (⟨false, some false, [], []⟩,
      ⟨p.2 ++ s.queryTasks.map cancelJoin, p.1⟩))

/-! ## Claims C7, C8, C10 -/

/-- C7 (code evaluated at the failing input): on an initialized instance
with two running periodic interval tasks, `close` cancels and joins only the
first.  The live-list iteration skips the second — removed-element shifting
moves it to the index the iterator has already consumed — so it is never
cancelled; `clear()` drops it from the registry but its `while True` loop is
still running when `close` returns, and keeps firing as the clock advances.
This contradicts the claim (and spec §4.2's shutdown contract); the
query-task loop at basedb.py line 518 iterates a `list(...)` copy, which is
exactly the fix the periodic loop is missing. -/
theorem close_skips_second_periodic_task :
    close ⟨true, some true, [.running, .running], []⟩ =
      .ok (⟨false, some false, [], []⟩, ⟨[.cancelled], [.running]⟩) := by
  simp [close, requireInit, cancelLiveLoop, cancelJoin]

/-- C8: every guarded data operation invoked on an instance that is not
initialized or whose connection attribute is absent raises the "not ready"
`RuntimeError` without reaching its body (and hence without touching the
storage engine). -/
theorem not_ready_refuses_ops (op : DataOp) (st : DBLife)
    (h : st.initialized = false ∨ st.conn = none) :
    runDataOp op st = .error .notReady := by
  unfold runDataOp requireInit
  simp [h]

theorem not_ready_refuses_ops_witness :
    runDataOp .execute newDB = .error .notReady :=
  not_ready_refuses_ops .execute newDB (Or.inl rfl)

/-- C10: `close` is itself guarded — on a never-initialized instance it
raises the "not ready" error, and because a successful `close` resets
`initialized`, a second `close` raises the same error rather than being a
no-op. -/
theorem close_not_idempotent (st st' : DBLife) (log : CloseLog)
    (h : close st = .ok (st', log)) :
    close newDB = .error .notReady ∧ close st' = .error .notReady := by
  constructor
  · rfl
  · unfold close requireInit at h
    by_cases hg : st.initialized = false ∨ st.conn = none
    · simp [hg] at h
    · simp only [hg, if_false] at h
      obtain ⟨hst, _⟩ := Prod.mk.injEq .. ▸ Except.ok.inj h
      rw [← hst]
      rfl

theorem close_not_idempotent_witness :
    close newDB = .error .notReady ∧
    close ⟨false, some false, [], []⟩ = .error .notReady :=
  close_not_idempotent ⟨true, some true, [], [.completed]⟩
    ⟨false, some false, [], []⟩ ⟨[.completed], []⟩
    (by simp [close, requireInit, cancelLiveLoop, cancelJoin])

/-! ## DDL builder (C9)

The repository's builder module (`scriptdb/dbbuilder.py`) is not among the
provided sources — only its test suite is — so the definitions below are
modelled from spec §4.3 (identifier quoting, the closed kind mapping,
literal rendering, the table builder's clause accumulation and auto-increment
rule) and checked against the expected strings of `tests/test_dbbuilder.py`.
-/

/-- Modelled from the spec: the builder's abstract column kinds; the Python
tests pass `int`, `str`, `bool`, .... -/
inductive FieldKind where
  | integer
  | text
  | real
  | boolean
  | blob
deriving DecidableEq, Repr

/-- Modelled from the spec: the fixed, closed mapping from abstract kinds to
physical affinities; booleans store as 0/1 under INTEGER affinity. -/
def fieldKindSQL : FieldKind → String
  | .integer => "INTEGER"
  | .text => "TEXT"
  | .real => "REAL"
  | .boolean => "INTEGER"
  | .blob => "BLOB"

/-- Doubles every occurrence of `q` in a character list. -/
def doubleChar (q : Char) : List Char → List Char
  | [] => []
  | c :: cs => if c = q then c :: c :: doubleChar q cs else c :: doubleChar q cs

/-- Modelled from the spec: every identifier is wrapped in double quotes with
internal double quotes doubled. -/
def quoteIdent (s : String) : String :=
  "\"" ++ String.mk (doubleChar '"' s.data) ++ "\""

/-- Modelled from the spec: supported default-literal values. -/
inductive Lit where
  | nullL
  | boolL (b : Bool)
  | intL (i : Int)
  | strL (s : String)
deriving DecidableEq, Repr

/-- Modelled from the spec: literal rendering — `none → NULL`,
`true/false → 1/0`, integers → decimal text, strings → single-quoted with
internal single quotes doubled. -/
def renderLit : Lit → String
  | .nullL => "NULL"
  | .boolL true => "1"
  | .boolL false => "0"
  | .intL i => toString i
  | .strL s => "\x27" ++ String.mk (doubleChar '\x27' s.data) ++ "\x27"

/-- Modelled from the spec: the fluent table builder's accumulated state —
column clauses in declaration order, table-level constraints following the
columns, the if-not-exists toggle (default present) and the without-rowid
modifier. -/
structure TableBuilder where
  table : String
  ifNotExists : Bool
  withoutRowid : Bool
  colClauses : List String
  constraintClauses : List String
deriving DecidableEq, Repr

/-- Modelled from the spec: `Builder.create_table(name)`; the if-not-exists
toggle is present by default (pass `true` here for the default call). -/
def create_table (name : String) (ifNotExists withoutRowid : Bool) : TableBuilder :=
  ⟨name, ifNotExists, withoutRowid, [], []⟩

/-- Modelled from the spec: `primary_key(name, kind, auto_increment)` —
auto-increment defaults to "when the kind is integer" and is accepted only
then; requesting it on any other kind fails fast at build time, before text
emission. -/
def TableBuilder.primary_key (b : TableBuilder) (name : String) (kind : FieldKind)
    (autoInc : Option Bool) : Except String TableBuilder :=
  let wantAuto := autoInc.getD (decide (kind = .integer))
  if wantAuto = true ∧ kind ≠ .integer then
    .error "AUTOINCREMENT requires an INTEGER primary key"
  else
    .ok { b with colClauses := b.colClauses ++
      [quoteIdent name ++ " " ++ fieldKindSQL kind ++ " PRIMARY KEY" ++
        (if wantAuto then " AUTOINCREMENT" else "")] }

/-- Modelled from the spec: `add_field(name, kind, not_null, unique, default,
references)` renders one column clause in declaration order. -/
def TableBuilder.add_field (b : TableBuilder) (name : String) (kind : FieldKind)
    (notNull uniq : Bool) (dflt : Option Lit) (refs : Option (String × String)) :
    TableBuilder :=
  { b with colClauses := b.colClauses ++
    [quoteIdent name ++ " " ++ fieldKindSQL kind ++
      (if notNull then " NOT NULL" else "") ++
      (if uniq then " UNIQUE" else "") ++
      (match dflt with
       | some v => " DEFAULT " ++ renderLit v
       | none => "") ++
      (match refs with
       | some (t, c) => " REFERENCES " ++ quoteIdent t ++ "(" ++ quoteIdent c ++ ")"
       | none => "")] }

/-- Modelled from the spec: a table-level composite-unique group. -/
def TableBuilder.unique (b : TableBuilder) (cols : List String) : TableBuilder :=
  { b with constraintClauses := b.constraintClauses ++
    ["UNIQUE (" ++ String.intercalate ", " (cols.map quoteIdent) ++ ")"] }

/-- Modelled from the spec: a free-form check expression. -/
def TableBuilder.check (b : TableBuilder) (expr : String) : TableBuilder :=
  { b with constraintClauses := b.constraintClauses ++ ["CHECK (" ++ expr ++ ")"] }

/-- Modelled from the spec: `done()` emits one CREATE TABLE statement with
columns and constraints comma-joined in declaration order, constraints after
columns. -/
def TableBuilder.done (b : TableBuilder) : String :=
  "CREATE TABLE " ++ (if b.ifNotExists then "IF NOT EXISTS " else "") ++
    quoteIdent b.table ++ " (" ++
    String.intercalate ", " (b.colClauses ++ b.constraintClauses) ++ ")" ++
    (if b.withoutRowid then " WITHOUT ROWID" else "") ++ ";"

/-- The modelled builder reproduces the expected text of
`test_create_table_builder_generates_sql` exactly. -/
theorem builder_matches_repo_test :
    ((create_table "users" true false).primary_key "id" .integer none).map
        (fun b => ((((b.add_field "name" .text true false none none).add_field
            "is_active" .boolean true false (some (.boolL false)) none).unique
            ["name"]).done)) =
      .ok ("CREATE TABLE IF NOT EXISTS \"users\" (\"id\" INTEGER PRIMARY KEY AUTOINCREMENT, \"name\" TEXT NOT NULL, \"is_active\" INTEGER NOT NULL DEFAULT 0, UNIQUE (\"name\"));") := by
  rfl

/-- C9: the chained description `create_table("users")` with integer primary
key `id` and not-null text field `name`, finished with `done()`, compiles to
exactly the claimed CREATE TABLE text: identifiers double-quoted, the
if-not-exists toggle present, AUTOINCREMENT applied because the primary key
kind is integer.  Being a Lean function of the description, the output is
determined by the description alone. -/
theorem create_table_users_sql :
    ((create_table "users" true false).primary_key "id" .integer none).map
        (fun b => (b.add_field "name" .text true false none none).done) =
      .ok ("CREATE TABLE IF NOT EXISTS \"users\" (\"id\" INTEGER PRIMARY KEY AUTOINCREMENT, \"name\" TEXT NOT NULL);") := by
  rfl

end ScriptDB
